import Mathlib

/-!
# Verification of the Kodex text-expansion engine against its specification

Shallow embedding of the core components of the Kodex repository:

* `kodex_py/utils/hex_codec.py` — legacy hex codec (`hexify` / `dehexify`);
* `kodex_py/engine/matcher.py` — trie-based hotstring matcher;
* `kodex_py/engine/input_monitor.py` — keyboard event handling;
* `kodex_py/engine/executor.py` — expansion executor;
* `kodex_py/native_messaging.py` — time-tracking ledger update;
* `kodex_py/storage/bundle_io.py` — `.kodex` bundle codec.

Python strings are modelled as `List Char`; Python dicts as association
lists (insertion-ordered, matching dict semantics for the operations the
code uses); machine time as `Int` seconds.  Recursions over strings use a
length fuel so that every definition reduces in the kernel.
-/

namespace Kodex

/-! ## Generic string helpers (Python `str` operations on `List Char`) -/

/-- Python `pat in s` (substring containment). -/
def hasSub (pat : List Char) : List Char → Bool
  | [] => pat.isEmpty
  | c :: rest => pat.isPrefixOf (c :: rest) || hasSub pat rest

/-- Python `s.index(pat)`: index of the first occurrence of `pat`
(meaningful only when `hasSub pat s`; total here, returning the length
of `s` when the pattern is absent). -/
def indexOfSub (pat : List Char) : List Char → Nat
  | [] => 0
  | c :: rest => if pat.isPrefixOf (c :: rest) then 0 else indexOfSub pat rest + 1

/-- Worker for `replaceAll`, structurally recursive on a fuel that bounds
the input length. -/
def replaceAllAux (pat rep : List Char) : Nat → List Char → List Char
  | 0, s => s
  | _ + 1, [] => []
  | fuel + 1, c :: rest =>
    if pat.isPrefixOf (c :: rest) ∧ pat ≠ [] then
      rep ++ replaceAllAux pat rep fuel (rest.drop (pat.length - 1))
    else
      c :: replaceAllAux pat rep fuel rest

/-- Python `s.replace(pat, rep)`: non-overlapping left-to-right replacement
of every occurrence of `pat` by `rep` (the code only calls it with a
nonempty `pat`). -/
def replaceAll (pat rep s : List Char) : List Char :=
  replaceAllAux pat rep s.length s

/-- Uppercase hex digit for a value `< 16` (Python `"%X"` digit set). -/
def hexDigit (n : Nat) : Char :=
  if n < 10 then Char.ofNat (48 + n) else Char.ofNat (55 + n)

/-- Worker for `natToHexRev` (fuel bounds the value). -/
def natToHexRevAux : Nat → Nat → List Char
  | 0, _ => []
  | fuel + 1, n => if n = 0 then [] else hexDigit (n % 16) :: natToHexRevAux fuel (n / 16)

/-- Hex digits of `n`, least significant first (empty for `0`). -/
def natToHexRev (n : Nat) : List Char :=
  natToHexRevAux n n

/-- Big-endian uppercase hex digits of `n` (Python `format(n, "X")`). -/
def natToHex (n : Nat) : List Char :=
  if n = 0 then ['0'] else (natToHexRev n).reverse

/-- Python `f"{n:02X}"`: big-endian uppercase hex, zero-padded to width 2. -/
def format02X (n : Nat) : List Char :=
  List.replicate (2 - (natToHex n).length) '0' ++ natToHex n

/-- `hexify` from `hex_codec.py`: `f"{ord(ch):02X}"` per character,
concatenated.  (For codepoints above `0xFF` the code only logs a warning;
it still appends the full hex representation.) -/
def hexify (s : List Char) : List Char :=
  s.flatMap (fun ch => format02X ch.toNat)

/-- Value of a hex digit character, as accepted by Python `int(_, 16)`. -/
def hexVal (c : Char) : Option Nat :=
  if 48 ≤ c.toNat ∧ c.toNat ≤ 57 then some (c.toNat - 48)
  else if 65 ≤ c.toNat ∧ c.toNat ≤ 70 then some (c.toNat - 65 + 10)
  else if 97 ≤ c.toNat ∧ c.toNat ≤ 102 then some (c.toNat - 97 + 10)
  else none

/-- `dehexify` from `hex_codec.py`: decode two hex digits at a time via
`chr(int(hex_str[i:i+2], 16))`; `none` models the `ValueError` raised by
`int` on a non-hex character. -/
def dehexify : List Char → Option (List Char)
  | [] => some []
  | [a] => (hexVal a).map (fun v => [Char.ofNat v])
  | a :: b :: rest => do
    let va ← hexVal a
    let vb ← hexVal b
    let tail ← dehexify rest
    pure (Char.ofNat (va * 16 + vb) :: tail)

/-! ## Matcher — `kodex_py/engine/matcher.py` -/

/-- `TriggerType` from `storage/models.py`. -/
inductive TriggerType where
  | enter
  | tab
  | space
  | instant
deriving DecidableEq, Repr

/-- A `frozenset[TriggerType]` value, as a membership record. -/
structure TriggerSet where
  enter : Bool
  tab : Bool
  space : Bool
  instant : Bool
deriving DecidableEq, Repr

/-- `t in triggers` for a trigger set. -/
def TriggerSet.mem (s : TriggerSet) : TriggerType → Bool
  | .enter => s.enter
  | .tab => s.tab
  | .space => s.space
  | .instant => s.instant

/-- `MatchResult` — the payload stored at a trie leaf. -/
structure MatchResult where
  hotstringId : Nat
  name : List Char
  triggers : TriggerSet
deriving DecidableEq, Repr

/-- `result.is_instant` (`TriggerType.INSTANT in self.triggers`). -/
def MatchResult.isInstant (r : MatchResult) : Bool :=
  r.triggers.instant

/-- `_TrieNode`: children dict plus optional match payload. -/
inductive Trie where
  | node : List (Char × Trie) → Option MatchResult → Trie

/-- Lookup in a children dict. -/
def lookupChild : List (Char × Trie) → Char → Option Trie
  | [], _ => none
  | (c0, t0) :: rest, c => if c = c0 then some t0 else lookupChild rest c

/-- Assignment into a children dict (replace in place or append,
matching Python dict semantics). -/
def setChild : List (Char × Trie) → Char → Trie → List (Char × Trie)
  | [], c, t => [(c, t)]
  | (c0, t0) :: rest, c, t =>
    if c = c0 then (c, t) :: rest else (c0, t0) :: setChild rest c t

/-- A fresh `_TrieNode()`. -/
def Trie.empty : Trie := .node [] none

/-- The walk/create loop of `HotstringMatcher.add`: walk `key`, creating
nodes, and store the payload at the leaf. -/
def Trie.insert : Trie → List Char → MatchResult → Trie
  | .node ch _, [], pl => .node ch (some pl)
  | .node ch mm, c :: cs, pl =>
    let child := (lookupChild ch c).getD Trie.empty
    .node (setChild ch c (child.insert cs pl)) mm

/-- The inner walk of `HotstringMatcher._suffix_match`: follow `cs` from
this node; `none` when a child is missing (`matched = False`) or when the
final node carries no payload. -/
def Trie.walkMatch : Trie → List Char → Option MatchResult
  | .node _ mm, [] => mm
  | .node ch _, c :: cs =>
    match lookupChild ch c with
    | none => none
    | some t => t.walkMatch cs

/-- `HotstringMatcher` state: trie root, rolling buffer, case flag, and
the running maximum registered key length. -/
structure Matcher where
  root : Trie
  buffer : List Char
  caseSensitive : Bool
  maxLen : Nat

/-- `HotstringMatcher(case_sensitive=...)` constructor. -/
def Matcher.init (caseSensitive : Bool) : Matcher :=
  ⟨Trie.empty, [], caseSensitive, 0⟩

/-- `HotstringMatcher.add`. -/
def Matcher.addHotstring (m : Matcher) (name : List Char) (id : Nat)
    (tr : TriggerSet) : Matcher :=
  let key := if m.caseSensitive then name else name.map Char.toLower
  { m with
    root := m.root.insert key ⟨id, name, tr⟩
    maxLen := if m.maxLen < key.length then key.length else m.maxLen }

/-- The best-match accumulator of `_suffix_match`: keep the candidate only
when it is strictly longer than the current best. -/
def bestOf (best cand : Option MatchResult) : Option MatchResult :=
  match cand with
  | none => best
  | some r =>
    match best with
    | none => some r
    | some b => if b.name.length < r.name.length then some r else some b

/-- `HotstringMatcher._suffix_match`: walk every suffix of the buffer
starting at `i ∈ [max(0, len - max_len), len)` and keep the longest
payload. -/
def Matcher.suffixMatch (m : Matcher) : Option MatchResult :=
  let n := m.buffer.length
  let start := n - m.maxLen
  (List.range' start (n - start)).foldl
    (fun best i => bestOf best (m.root.walkMatch (m.buffer.drop i))) none

/-- `HotstringMatcher.feed`: append (case-folded) char, trim the buffer to
the last `max_len + 10` characters when it exceeds `max_len + 20`, then
fire an instant suffix match (clearing the buffer) if there is one. -/
def Matcher.feed (m : Matcher) (ch : Char) : Matcher × Option MatchResult :=
  let c := if m.caseSensitive then ch else ch.toLower
  let buf0 := m.buffer ++ [c]
  let buf :=
    if m.maxLen + 20 < buf0.length then buf0.drop (buf0.length - (m.maxLen + 10))
    else buf0
  let m' := { m with buffer := buf }
  match m'.suffixMatch with
  | some r => if r.isInstant then ({ m' with buffer := [] }, some r) else (m', none)
  | none => (m', none)

/-- `HotstringMatcher.check_triggered`: return the suffix match if the
trigger is in its trigger set; the buffer is cleared in every case. -/
def Matcher.checkTriggered (m : Matcher) (t : TriggerType) :
    Matcher × Option MatchResult :=
  match m.suffixMatch with
  | some r =>
    if r.triggers.mem t then ({ m with buffer := [] }, some r)
    else ({ m with buffer := [] }, none)
  | none => ({ m with buffer := [] }, none)

/-- `HotstringMatcher.reset`. -/
def Matcher.reset (m : Matcher) : Matcher :=
  { m with buffer := [] }

/-- Feed a sequence of characters, collecting the instant matches that
`feed` returns along the way. -/
def Matcher.feedAll (m : Matcher) (cs : List Char) : Matcher × List MatchResult :=
  cs.foldl
    (fun acc ch =>
      let r := acc.1.feed ch
      (r.1, acc.2 ++ r.2.toList))
    (m, [])

/-- A case-sensitive matcher holding exactly two registered hotstrings,
added in the order `short` then `long` (the setup of spec scenario S3). -/
def twoNameMatcher (short long : List Char) (ids idl : Nat) (ts tl : TriggerSet) : Matcher :=
  ((Matcher.init true).addHotstring short ids ts).addHotstring long idl tl

/-- A matcher with its buffer replaced (proof-side helper for talking
about intermediate buffer states). -/
def withBuffer (m : Matcher) (b : List Char) : Matcher :=
  { m with buffer := b }

/-! ## Input monitor — `kodex_py/engine/input_monitor.py` -/

/-- Classification of a key press, mirroring the branch structure of
`InputMonitor._on_key_press` (trigger keys, reset keys, modifiers,
Backspace, printable characters, and keys with no `.char`). -/
inductive KeyEvent where
  | trigger (t : TriggerType)
  | resetKey
  | modifier
  | backspace
  | printable (c : Char)
  | noChar
deriving DecidableEq, Repr

/-- `InputMonitor._on_key_press`: returns the updated matcher and the list
of `on_match` callback invocations performed (with the trigger kind passed
along, `none` for instant matches).  On Backspace the buffer is rebuilt by
reset-then-re-feed and every `feed` return value is discarded, exactly as
in the source. -/
def onKeyPress (disabled : Bool) (m : Matcher) (ev : KeyEvent) :
    Matcher × List (MatchResult × Option TriggerType) :=
  if disabled then (m, [])
  else
    match ev with
    | .trigger t =>
      let r := m.checkTriggered t
      match r.2 with
      | some res => (r.1, [(res, some t)])
      | none => (r.1, [])
    | .resetKey => (m.reset, [])
    | .modifier => (m, [])
    | .backspace =>
      if m.buffer.isEmpty then (m, [])
      else ((m.reset.feedAll m.buffer.dropLast).1, [])
    | .printable c =>
      let r := m.feed c
      match r.2 with
      | some res => (r.1, [(res, none)])
      | none => (r.1, [])
    | .noChar => (m, [])

/-! ## Executor — `kodex_py/engine/executor.py` -/

/-- `SendMode` from `storage/models.py`. -/
inductive SendMode where
  | direct
  | clipboard
deriving DecidableEq, Repr

/-- One call into the `sender` module. -/
inductive SendEvent where
  | backspaces (n : Nat)
  | typeText (s : List Char)
  | pasteText (s : List Char)
  | cursorLeft (n : Nat)
deriving DecidableEq, Repr

/-- Result of one `execute` run: the returned boolean, the sender calls
made in order, and the character count handed to the stats callback
(when one is installed). -/
structure ExecResult where
  ok : Bool
  events : List SendEvent
  statsReport : Option Nat
deriving DecidableEq, Repr

/-- The `"%p"` prompt token (`execute` tests `"%p" in text`). -/
def pPat : List Char := ['%', 'p']

/-- The `"%|"` caret marker. -/
def cursorPat : List Char := ['%', '|']

/-- `"\r\n"`. -/
def crlfPat : List Char := ['\r', '\n']

/-- `"\n"`. -/
def lfPat : List Char := ['\n']

/-- `execute` from `engine/executor.py`.

The variable substitution `substitute(text, prompt_value=...)` reads the
clipboard, the clock and the global-variable store, so it is passed in as
an oracle `subst`; the prompt dialog is the oracle `promptFn` (`none`
models `prompt_fn=None`, and `f text = none` models a cancelled dialog).
The fire-and-forget sound playback only logs and performs no sender
call, so it does not appear in the event list.  `statsReport` records the
length that `stats_fn` receives when a callback is installed. -/
def pyExecute (hotstringName replacement : List Char) (isScript : Bool)
    (sendMode : SendMode) (promptFn : Option (List Char → Option (List Char)))
    (subst : List Char → Option (List Char) → List Char)
    (triggerChar : Bool) : ExecResult :=
  let eraseCount := hotstringName.length + (if triggerChar then 1 else 0)
  let ev0 : List SendEvent := [SendEvent.backspaces eraseCount]
  if isScript then
    if hasSub pPat replacement then
      match promptFn with
      | some f =>
        match f replacement with
        | none => ⟨false, ev0, none⟩
        | some v =>
          ⟨true, ev0 ++ [SendEvent.typeText (replaceAll pPat v replacement)], none⟩
      | none => ⟨true, ev0 ++ [SendEvent.typeText replacement], none⟩
    else ⟨true, ev0 ++ [SendEvent.typeText replacement], none⟩
  else
    let text1 :=
      if sendMode = SendMode.direct then replaceAll crlfPat lfPat replacement
      else replacement
    let finish := fun (promptValue : Option (List Char)) =>
      let text2 := subst text1 promptValue
      let hasCur := hasSub cursorPat text2
      let cursorPos := indexOfSub cursorPat text2
      let text3 := if hasCur then replaceAll cursorPat [] text2 else text2
      let returnTo := if hasCur then text3.length - cursorPos else 0
      let inject : List SendEvent :=
        match sendMode with
        | .direct => [SendEvent.typeText text3]
        | .clipboard => [SendEvent.pasteText text3]
      let curEv : List SendEvent :=
        if 0 < returnTo then [SendEvent.cursorLeft returnTo] else []
      (⟨true, ev0 ++ inject ++ curEv, some text3.length⟩ : ExecResult)
    if hasSub pPat text1 then
      match promptFn with
      | some f =>
        match f text1 with
        | none => ⟨false, ev0, none⟩
        | some v => finish (some v)
      | none => finish (some [])
    else finish none

/-- Total number of backspaces requested across the sender calls. -/
def countBackspaces (evs : List SendEvent) : Nat :=
  evs.foldl
    (fun a e =>
      match e with
      | SendEvent.backspaces n => a + n
      | _ => a)
    0

/-! ## Time-tracking ledger — `kodex_py/native_messaging.py`

Python dicts are modelled as insertion-ordered association lists;
`datetime` instants as `Int` seconds (so `elapsed = now - started_at`);
ISO timestamps stored in the ledger as the `Int` instant they denote.
An absent or unparseable `started_at` yields `elapsed = 0.0` in the code
and is covered by the `none` case / by a `startedAt` value equal to
`now`, both of which take the no-accumulation path. -/

/-- Dict lookup. -/
def alGet {κ α : Type} [DecidableEq κ] : List (κ × α) → κ → Option α
  | [], _ => none
  | (k, v) :: rest, key => if key = k then some v else alGet rest key

/-- Dict assignment (replace in place or append). -/
def alSet {κ α : Type} [DecidableEq κ] : List (κ × α) → κ → α → List (κ × α)
  | [], key, v => [(key, v)]
  | (k0, v0) :: rest, key, v =>
    if key = k0 then (key, v) :: rest else (k0, v0) :: alSet rest key v

/-- Python `dict.setdefault`: returns the (existing or default) value and
the possibly-extended dict. -/
def alSetdefault {κ α : Type} [DecidableEq κ] (l : List (κ × α)) (key : κ) (d : α) :
    α × List (κ × α) :=
  match alGet l key with
  | some v => (v, l)
  | none => (d, alSet l key d)

/-- One `entries[date][ticket]` record. -/
structure TicketEntry where
  totalSeconds : Int
  source : String
  lastSeen : Int
deriving DecidableEq, Repr

/-- The `_active` record. -/
structure ActiveInfo where
  ticketNumber : String
  source : String
  startedAt : Option Int
deriving DecidableEq, Repr

/-- The `time_tracking.json` in-memory shape. -/
structure Ledger where
  entries : List (String × List (String × TicketEntry))
  active : Option ActiveInfo
deriving DecidableEq, Repr

/-- Nested `entries[date][ticket]` lookup. -/
def alGet2 (entries : List (String × List (String × TicketEntry)))
    (d t : String) : Option TicketEntry :=
  match alGet entries d with
  | none => none
  | some td => alGet td t

/-- Environment of one `_update_time_tracking` call: lock probe result,
local wall-clock hour/minute, the instant `now`, and today's date
string. -/
structure TrackEnv where
  locked : Bool
  hour : Nat
  minute : Nat
  now : Int
  today : String
deriving DecidableEq, Repr

/-- `TRACKING_CUTOFF_HOUR = 17`. -/
def trackingCutoffHour : Nat := 17

/-- `TRACKING_CUTOFF_MINUTE = 50`. -/
def trackingCutoffMinute : Nat := 50

/-- `_is_past_tracking_cutoff`. -/
def isPastTrackingCutoff (env : TrackEnv) : Bool :=
  decide (trackingCutoffHour < env.hour)
    || (decide (env.hour = trackingCutoffHour)
        && decide (trackingCutoffMinute ≤ env.minute))

/-- `_should_track_time`: not locked and not past the cutoff. -/
def shouldTrackTime (env : TrackEnv) : Bool :=
  if env.locked then false
  else if isPastTrackingCutoff env then false
  else true

/-- The accumulation block of `_update_time_tracking`:
`today_entries = entries.setdefault(today, {})`,
`ticket_entry = today_entries.setdefault(ticket, {0, source, now})`,
`ticket_entry.total_seconds += elapsed`, `ticket_entry.last_seen = now`. -/
def accumulate (entries : List (String × List (String × TicketEntry)))
    (today ticket src : String) (elapsed now : Int) :
    List (String × List (String × TicketEntry)) :=
  let td := alSetdefault entries today []
  let te := alSetdefault td.1 ticket ⟨0, src, now⟩
  let updated : TicketEntry :=
    { te.1 with totalSeconds := te.1.totalSeconds + elapsed, lastSeen := now }
  alSet td.2 today (alSet te.2 ticket updated)

/-- The step-4 block of `_update_time_tracking`: ensure today's entry for
the incoming ticket exists (defaulting `total_seconds` to 0). -/
def registerTicket (entries : List (String × List (String × TicketEntry)))
    (today t0 src : String) (now : Int) :
    List (String × List (String × TicketEntry)) :=
  let td := alSetdefault entries today []
  let td1 := (alSetdefault td.1 t0 ⟨0, src, now⟩).2
  alSet td.2 today td1

/-- `if today not in data["entries"]: data["entries"][today] = {}`. -/
def ensureToday (entries : List (String × List (String × TicketEntry)))
    (today : String) : List (String × List (String × TicketEntry)) :=
  if (alGet entries today).isSome then entries else alSet entries today []

/-- The finalize block of `_update_time_tracking` (step 3): accumulate
the previously active interval when tracking is on and `elapsed > 0`;
returns the updated ledger and whether the same-ticket early return was
taken. -/
def finalizeActive (env : TrackEnv) (source : String) (incoming : Option String)
    (data : Ledger) : Ledger × Bool :=
  match data.active with
  | none => (data, false)
  | some active =>
    if active.ticketNumber = "" then (data, false)
    else
      match active.startedAt with
      | none => (data, false)
      | some st =>
        let elapsed : Int := env.now - st
        let track := shouldTrackTime env && decide (0 < elapsed)
        if incoming = some active.ticketNumber ∧ source = active.source then
          let entries1 :=
            if track then
              accumulate data.entries env.today active.ticketNumber active.source
                elapsed env.now
            else data.entries
          (⟨entries1, some { active with startedAt := some env.now }⟩, true)
        else
          let entries1 :=
            if track then
              accumulate data.entries env.today active.ticketNumber active.source
                elapsed env.now
            else data.entries
          (⟨entries1, data.active⟩, false)

/-- `_update_time_tracking(payload)` with `source = payload.get("source")`
and `incoming = payload.get("ticket_number")` (`some ""` and `none` are
both falsy in the Python truthiness tests). -/
def updateTimeTracking (env : TrackEnv) (source : String) (incoming : Option String)
    (data : Ledger) : Ledger :=
  let data1 : Ledger := ⟨ensureToday data.entries env.today, data.active⟩
  let fin := finalizeActive env source incoming data1
  if fin.2 then fin.1
  else
    match incoming with
    | some t =>
      if t = "" then ⟨fin.1.entries, none⟩
      else
        ⟨registerTicket fin.1.entries env.today t source env.now,
          some ⟨t, source, some env.now⟩⟩
    | none => ⟨fin.1.entries, none⟩

/-! ## Bundle codec — `kodex_py/storage/bundle_io.py`

The codec is modelled on the hotstring records it moves: `export_bundle`
reads the bundle's hotstrings from the store and writes the `.kodex`
text; `import_bundle` parses the text and saves one record per
non-empty-name pair.  The database itself is out of scope here: the
export model takes the record list `db.get_hotstrings` would return, and
the import model returns the records handed to `db.save_hotstring`, in
order. -/

end Kodex

namespace Kodex

/-! ## Equation lemmas for the fuel-based recursions -/

theorem natToHexRevAux_congr :
    ∀ f g n, n ≤ f → n ≤ g → natToHexRevAux f n = natToHexRevAux g n := by
  intro f
  induction f with
  | zero =>
    intro g n hf _
    have : n = 0 := Nat.le_zero.mp hf
    subst this
    cases g <;> rfl
  | succ f ih =>
    intro g n hf hg
    cases g with
    | zero =>
      have : n = 0 := Nat.le_zero.mp hg
      subst this
      rfl
    | succ g =>
      simp only [natToHexRevAux]
      by_cases h0 : n = 0
      · simp [h0]
      · simp only [h0, if_false]
        have hdiv : n / 16 < n := Nat.div_lt_self (Nat.pos_of_ne_zero h0) (by omega)
        rw [ih g (n / 16) (by omega) (by omega)]

theorem natToHexRev_eq (n : Nat) :
    natToHexRev n = if n = 0 then [] else hexDigit (n % 16) :: natToHexRev (n / 16) := by
  by_cases h0 : n = 0
  · subst h0
    rfl
  · simp only [h0, if_false]
    obtain ⟨m, rfl⟩ : ∃ m, n = m + 1 := ⟨n - 1, by omega⟩
    show natToHexRevAux (m + 1) (m + 1) = _
    simp only [natToHexRevAux, h0, if_false]
    have hdiv : (m + 1) / 16 < m + 1 := Nat.div_lt_self (by omega) (by omega)
    rw [natToHexRevAux_congr m ((m + 1) / 16) ((m + 1) / 16) (by omega) (le_refl _)]
    rfl

/-! ## Theorems about the hex codec -/

theorem natToHexRev_nil_iff (n : Nat) : natToHexRev n = [] ↔ n = 0 := by
  constructor
  · intro h
    by_contra hn
    rw [natToHexRev_eq] at h
    simp [hn] at h
  · intro h
    subst h
    rfl

theorem natToHexRev_length_le (k : Nat) :
    ∀ n : Nat, n < 16 ^ k → (natToHexRev n).length ≤ k := by
  induction k with
  | zero =>
    intro n hn
    have : n = 0 := by simpa using hn
    subst this
    simp [natToHexRev_eq]
  | succ k ih =>
    intro n hn
    by_cases h0 : n = 0
    · subst h0
      simp [natToHexRev_eq]
    · rw [natToHexRev_eq]
      simp only [h0, if_false, List.length_cons]
      have : n / 16 < 16 ^ k := by
        apply Nat.div_lt_of_lt_mul
        rw [pow_succ] at hn
        omega
      exact Nat.succ_le_succ (ih _ this)

theorem natToHexRev_length_gt (k : Nat) :
    ∀ n : Nat, 16 ^ k ≤ n → k < (natToHexRev n).length := by
  induction k with
  | zero =>
    intro n hn
    have h0 : n ≠ 0 := by omega
    rw [natToHexRev_eq]
    simp [h0]
  | succ k ih =>
    intro n hn
    have h0 : n ≠ 0 := by
      have : 0 < 16 ^ (k + 1) := Nat.pos_pow_of_pos _ (by omega)
      omega
    rw [natToHexRev_eq]
    simp only [h0, if_false, List.length_cons]
    have : 16 ^ k ≤ n / 16 := by
      rw [pow_succ] at hn
      exact (Nat.le_div_iff_mul_le (by omega)).mpr hn
    exact Nat.succ_lt_succ (ih _ this)

theorem format02X_length_eq_two {n : Nat} (h : n ≤ 255) :
    (format02X n).length = 2 := by
  have hle : (natToHex n).length ≤ 2 := by
    by_cases h0 : n = 0
    · subst h0
      simp [natToHex]
    · rw [natToHex]
      simp only [h0, if_false, List.length_reverse]
      exact natToHexRev_length_le 2 n (by norm_num; omega)
  have hpos : 1 ≤ (natToHex n).length := by
    by_cases h0 : n = 0
    · subst h0
      simp [natToHex]
    · rw [natToHex]
      simp only [h0, if_false, List.length_reverse]
      rcases Nat.eq_zero_or_pos (natToHexRev n).length with hz | hp
      · exact absurd ((natToHexRev_nil_iff n).mp (List.length_eq_zero.mp hz)) h0
      · exact hp
  rw [format02X]
  simp only [List.length_append, List.length_replicate]
  omega

theorem format02X_length_gt_two {n : Nat} (h : 255 < n) :
    2 < (format02X n).length := by
  have h0 : n ≠ 0 := by omega
  have : 2 < (natToHex n).length := by
    rw [natToHex]
    simp only [h0, if_false, List.length_reverse]
    exact natToHexRev_length_gt 2 n (by norm_num; omega)
  rw [format02X]
  simp only [List.length_append, List.length_replicate]
  omega

theorem format02X_length_ge_two (n : Nat) : 2 ≤ (format02X n).length := by
  by_cases h : n ≤ 255
  · exact (format02X_length_eq_two h).ge
  · exact le_of_lt (format02X_length_gt_two (by omega))

theorem hexify_length_lower (s : List Char) : 2 * s.length ≤ (hexify s).length := by
  induction s with
  | nil => simp [hexify]
  | cons c rest ih =>
    simp only [hexify, List.flatMap_cons, List.length_append, List.length_cons] at *
    have := format02X_length_ge_two c.toNat
    omega

/-- C7 claim as stated is refuted at the concrete character `U+0100`:
the encoder emits `"100"` (three digits, the full hex of the codepoint),
not the low byte `"00"`, so the output length is 3, not 2. -/
theorem c7_counterexample :
    hexify [Char.ofNat 0x100] = ['1', '0', '0'] ∧
      (hexify [Char.ofNat 0x100]).length ≠ 2 * ([Char.ofNat 0x100] : List Char).length ∧
      hexify [Char.ofNat 0x100] ≠ ['0', '0'] := by
  refine ⟨?_, ?_, ?_⟩ <;> decide

/-- C7 amended: the encoder emits exactly two uppercase hex digits per
character with codepoint ≤ 0xFF; for a codepoint > 0xFF it emits the full
big-endian hex of the codepoint (more than two digits) rather than the low
byte, so the output length equals twice the input length iff every
codepoint is ≤ 0xFF. -/
theorem c7_amended (s : List Char) :
    (hexify s).length = 2 * s.length ↔ ∀ c ∈ s, c.toNat ≤ 255 := by
  induction s with
  | nil => simp [hexify]
  | cons c rest ih =>
    have hlow := hexify_length_lower rest
    have hhead := format02X_length_ge_two c.toNat
    constructor
    · intro h
      simp only [hexify, List.flatMap_cons, List.length_append, List.length_cons] at h
      have hc : c.toNat ≤ 255 := by
        by_contra hgt
        push_neg at hgt
        have := format02X_length_gt_two hgt
        show False
        have : (hexify rest).length < 2 * rest.length := by
          simp only [hexify] at *
          omega
        omega
      have hrest : (hexify rest).length = 2 * rest.length := by
        have := format02X_length_eq_two hc
        simp only [hexify] at *
        omega
      intro x hx
      rcases List.mem_cons.mp hx with rfl | hx
      · exact hc
      · exact (ih.mp hrest) x hx
    · intro h
      have hc := format02X_length_eq_two (h c (List.mem_cons_self c rest))
      have hrest := ih.mpr (fun x hx => h x (List.mem_cons_of_mem c hx))
      simp only [hexify, List.flatMap_cons, List.length_append, List.length_cons] at *
      omega

set_option maxRecDepth 4000 in
theorem format02X_eq_pair :
    ∀ n : Nat, n < 256 → format02X n = [hexDigit (n / 16), hexDigit (n % 16)] := by
  decide

theorem hexVal_hexDigit : ∀ k : Nat, k < 16 → hexVal (hexDigit k) = some k := by
  decide

theorem dehexify_hexify (s : List Char) (h : ∀ c ∈ s, c.toNat ≤ 127) :
    dehexify (hexify s) = some s := by
  induction s with
  | nil => rfl
  | cons c rest ih =>
    have hc : c.toNat ≤ 127 := h c (List.mem_cons_self c rest)
    have hpair := format02X_eq_pair c.toNat (by omega)
    have hhi := hexVal_hexDigit (c.toNat / 16) (by omega)
    have hlo := hexVal_hexDigit (c.toNat % 16) (Nat.mod_lt _ (by omega))
    have hrest := ih (fun x hx => h x (List.mem_cons_of_mem c hx))
    have hchar : Char.ofNat (c.toNat / 16 * 16 + c.toNat % 16) = c := by
      have : c.toNat / 16 * 16 + c.toNat % 16 = c.toNat := by omega
      rw [this, Char.ofNat_toNat]
    show dehexify (format02X c.toNat ++ hexify rest) = _
    rw [hpair]
    show dehexify (hexDigit (c.toNat / 16) :: hexDigit (c.toNat % 16) :: hexify rest) = _
    rw [dehexify]
    rw [hhi, hlo, hrest]
    simp [hchar]

/-- C8 confirmed: decoding the encoding returns the original for every
ASCII string (`dehexify(hexify(s)) == s`). -/
theorem c8_hex_roundtrip (s : List Char) (h : ∀ c ∈ s, c.toNat ≤ 127) :
    dehexify (hexify s) = some s :=
  dehexify_hexify s h

/-- C8 witness: the round trip at the concrete ASCII string `"btw"`. -/
theorem c8_hex_roundtrip_witness :
    (∀ c ∈ (['b', 't', 'w'] : List Char), c.toNat ≤ 127) ∧
      dehexify (hexify ['b', 't', 'w']) = some ['b', 't', 'w'] :=
  ⟨by decide, c8_hex_roundtrip ['b', 't', 'w'] (by decide)⟩

/-! ## Theorems about the matcher -/

theorem walkMatch_trieEmpty : ∀ cs : List Char, Trie.empty.walkMatch cs = none := by
  intro cs
  cases cs <;> rfl

theorem lookupChild_setChild (ch : List (Char × Trie)) (c : Char) (t : Trie) (c' : Char) :
    lookupChild (setChild ch c t) c' = if c' = c then some t else lookupChild ch c' := by
  induction ch with
  | nil =>
    simp [setChild, lookupChild]
  | cons p rest ih =>
    obtain ⟨c0, t0⟩ := p
    by_cases h : c = c0
    · subst h
      by_cases h' : c' = c <;> simp [setChild, lookupChild, h']
    · simp only [setChild, h, if_false]
      by_cases h' : c' = c0
      · subst h'
        simp [lookupChild, Ne.symm h]
      · simp [lookupChild, h', ih]

theorem walkMatch_insert (key : List Char) :
    ∀ (t : Trie) (pl : MatchResult) (cs : List Char),
      (t.insert key pl).walkMatch cs = if cs = key then some pl else t.walkMatch cs := by
  induction key with
  | nil =>
    intro t pl cs
    obtain ⟨ch, mm⟩ := t
    cases cs with
    | nil => simp [Trie.insert, Trie.walkMatch]
    | cons c cs' => simp [Trie.insert, Trie.walkMatch]
  | cons k ks ih =>
    intro t pl cs
    obtain ⟨ch, mm⟩ := t
    cases cs with
    | nil => simp [Trie.insert, Trie.walkMatch]
    | cons c cs' =>
      simp only [Trie.insert, Trie.walkMatch, lookupChild_setChild]
      by_cases hck : c = k
      · subst hck
        rw [if_pos rfl]
        show ((((lookupChild ch c).getD Trie.empty).insert ks pl)).walkMatch cs' = _
        rw [ih]
        by_cases hcs : cs' = ks
        · simp [hcs]
        · have hne : (c :: cs') ≠ (c :: ks) := by simp [hcs]
          simp only [hcs, if_false, if_neg hne]
          cases hl : lookupChild ch c with
          | none => simp [hl, Option.getD, walkMatch_trieEmpty]
          | some t' => simp [hl, Option.getD]
      · have : (c :: cs') ≠ (k :: ks) := by simp [hck]
        simp [this, hck]

/-- The root of a matcher holding exactly the two registered names. -/
theorem walkMatch_two (short long : List Char) (ids idl : Nat) (ts tl : TriggerSet)
    (cs : List Char) :
    (twoNameMatcher short long ids idl ts tl).root.walkMatch cs
      = if cs = long then some ⟨idl, long, tl⟩
        else if cs = short then some ⟨ids, short, ts⟩
        else none := by
  show ((Trie.empty.insert short ⟨ids, short, ts⟩).insert long ⟨idl, long, tl⟩).walkMatch cs = _
  rw [walkMatch_insert, walkMatch_insert]
  by_cases h1 : cs = long
  · simp [h1]
  · by_cases h2 : cs = short
    · simp [h1, h2]
    · simp [h1, h2, walkMatch_trieEmpty]

theorem maxLen_two (short long : List Char) (ids idl : Nat) (ts tl : TriggerSet)
    (hlen : short.length < long.length) :
    (twoNameMatcher short long ids idl ts tl).maxLen = long.length := by
  show (if (if (0:Nat) < short.length then short.length else 0) < long.length
        then long.length
        else (if (0:Nat) < short.length then short.length else 0)) = long.length
  by_cases h1 : (0:Nat) < short.length
  · simp [h1, hlen]
  · have h2 : (0:Nat) < long.length := by omega
    simp [h1, h2]

theorem foldBest_none (f : Nat → Option MatchResult) (l : List Nat)
    (h : ∀ i ∈ l, f i = none) :
    l.foldl (fun best i => bestOf best (f i)) none = none := by
  induction l with
  | nil => rfl
  | cons i rest ih =>
    rw [List.foldl_cons, h i (List.mem_cons_self i rest)]
    exact ih (fun j hj => h j (List.mem_cons_of_mem i hj))

theorem foldBest_keep (f : Nat → Option MatchResult) (l : List Nat) (b : MatchResult)
    (h : ∀ i ∈ l, ∀ r, f i = some r → r.name.length ≤ b.name.length) :
    l.foldl (fun best i => bestOf best (f i)) (some b) = some b := by
  induction l with
  | nil => rfl
  | cons i rest ih =>
    rw [List.foldl_cons]
    have hstep : bestOf (some b) (f i) = some b := by
      cases hf : f i with
      | none => rfl
      | some r =>
        have := h i (List.mem_cons_self i rest) r hf
        simp [bestOf, Nat.not_lt.mpr this]
    rw [hstep]
    exact ih (fun j hj => h j (List.mem_cons_of_mem i hj))

theorem feedAll_nil (m : Matcher) : m.feedAll [] = (m, []) := rfl

theorem feedAll_snoc (m : Matcher) (cs : List Char) (c : Char) :
    m.feedAll (cs ++ [c])
      = (((m.feedAll cs).1.feed c).1,
          (m.feedAll cs).2 ++ ((m.feedAll cs).1.feed c).2.toList) := by
  simp [Matcher.feedAll, List.foldl_append]

/-- C4 amended: after every `feed` the buffer holds at most
`max_len + 20` characters (the code's actual trim threshold, not the
spec's `max_len + 10`); when appending would exceed that bound the buffer
is cut back to the most recent `max_len + 10` characters, so the
post-`feed` buffer is always a suffix of the old buffer plus the
(case-folded) new character — the oldest characters are discarded
first. -/
theorem feed_buffer_cases (m : Matcher) (ch : Char) :
    (m.feed ch).1.buffer = [] ∨
      (m.feed ch).1.buffer =
        (if m.maxLen + 20 < (m.buffer ++ [if m.caseSensitive then ch else ch.toLower]).length
         then (m.buffer ++ [if m.caseSensitive then ch else ch.toLower]).drop
                ((m.buffer ++ [if m.caseSensitive then ch else ch.toLower]).length
                  - (m.maxLen + 10))
         else m.buffer ++ [if m.caseSensitive then ch else ch.toLower]) := by
  unfold Matcher.feed
  dsimp only
  split
  all_goals try split
  all_goals first
  | (left; rfl)
  | (right; rfl)

theorem c4_amended (m : Matcher) (ch : Char) :
    ((m.feed ch).1.buffer.length ≤ m.maxLen + 20) ∧
      (m.feed ch).1.buffer <:+
        (m.buffer ++ [if m.caseSensitive then ch else ch.toLower]) := by
  rcases feed_buffer_cases m ch with h | h
  · rw [h]
    exact ⟨by simp, List.nil_suffix⟩
  · rw [h]
    constructor
    · by_cases hcond :
        m.maxLen + 20 < (m.buffer ++ [if m.caseSensitive then ch else ch.toLower]).length
      · rw [if_pos hcond, List.length_drop]
        omega
      · rw [if_neg hcond]
        omega
    · by_cases hcond :
        m.maxLen + 20 < (m.buffer ++ [if m.caseSensitive then ch else ch.toLower]).length
      · rw [if_pos hcond]
        exact List.drop_suffix _ _
      · rw [if_neg hcond]

/-- C4 claim as stated is refuted: with one registered name of length 1
(`max_len = 1`), feeding twelve characters leaves twelve characters in
the buffer, exceeding the claimed `max_len + 10 = 11` bound. -/
theorem c4_counterexample :
    ((((Matcher.init true).addHotstring ['a'] 1
          ⟨false, false, true, false⟩).feedAll (List.replicate 12 'b')).1.buffer.length = 12)
      ∧ (((Matcher.init true).addHotstring ['a'] 1 ⟨false, false, true, false⟩).maxLen = 1)
      ∧ ¬ ((((Matcher.init true).addHotstring ['a'] 1
          ⟨false, false, true, false⟩).feedAll (List.replicate 12 'b')).1.buffer.length ≤ 1 + 10) := by
  refine ⟨?_, ?_, ?_⟩ <;> decide

theorem suffixMatch_eq_none (m : Matcher)
    (h : ∀ i, m.buffer.length - m.maxLen ≤ i → i < m.buffer.length →
          m.root.walkMatch (m.buffer.drop i) = none) :
    m.suffixMatch = none := by
  unfold Matcher.suffixMatch
  dsimp only
  apply foldBest_none
  intro i hi
  rw [List.mem_range'_1] at hi
  exact h i hi.1 (by omega)

theorem suffixMatch_eq_some (m : Matcher) (b : MatchResult)
    (h0 : m.buffer.length - m.maxLen = 0)
    (hn : 0 < m.buffer.length)
    (hfirst : m.root.walkMatch m.buffer = some b)
    (hrest : ∀ i, 1 ≤ i → i < m.buffer.length → ∀ r,
        m.root.walkMatch (m.buffer.drop i) = some r → r.name.length ≤ b.name.length) :
    m.suffixMatch = some b := by
  unfold Matcher.suffixMatch
  dsimp only
  rw [h0, Nat.sub_zero]
  obtain ⟨p, hp⟩ : ∃ p, m.buffer.length = p + 1 := ⟨m.buffer.length - 1, by omega⟩
  rw [hp, List.range'_succ, List.foldl_cons]
  have hfst : bestOf none (m.root.walkMatch (m.buffer.drop 0)) = some b := by
    rw [List.drop_zero, hfirst]
    rfl
  rw [hfst]
  apply foldBest_keep
  intro i hi r hr
  rw [List.mem_range'_1] at hi
  exact hrest i hi.1 (by omega) r hr

theorem withBuffer_root (m : Matcher) (b : List Char) : (withBuffer m b).root = m.root := rfl

theorem withBuffer_buffer (m : Matcher) (b : List Char) : (withBuffer m b).buffer = b := rfl

theorem withBuffer_maxLen (m : Matcher) (b : List Char) :
    (withBuffer m b).maxLen = m.maxLen := rfl

theorem withBuffer_caseSensitive (m : Matcher) (b : List Char) :
    (withBuffer m b).caseSensitive = m.caseSensitive := rfl

theorem withBuffer_withBuffer (m : Matcher) (b b' : List Char) :
    withBuffer (withBuffer m b) b' = withBuffer m b' := rfl

theorem c3_sm_none (short long : List Char) (ids idl : Nat) (ts tl : TriggerSet)
    (hne : ∀ k, k < long.length → 0 < k → ¬ short <:+ long.take k)
    (j : Nat) (hj0 : 0 < j) (hjn : j < long.length) :
    (withBuffer (twoNameMatcher short long ids idl ts tl) (long.take j)).suffixMatch
      = none := by
  have hjlen : (long.take j).length = j := by
    rw [List.length_take]
    omega
  apply suffixMatch_eq_none
  intro i _ hi2
  rw [withBuffer_buffer, hjlen] at hi2
  rw [withBuffer_buffer, withBuffer_root, walkMatch_two]
  have hdlen : ((long.take j).drop i).length = j - i := by
    rw [List.length_drop, hjlen]
  have hne1 : (long.take j).drop i ≠ long := by
    intro he
    have := congrArg List.length he
    rw [hdlen] at this
    omega
  have hne2 : (long.take j).drop i ≠ short := by
    intro he
    exact hne j hjn hj0 (he ▸ List.drop_suffix i (long.take j))
  rw [if_neg hne1, if_neg hne2]

theorem c3_sm_long (short long : List Char) (ids idl : Nat) (ts tl : TriggerSet)
    (hlen : short.length < long.length) :
    (withBuffer (twoNameMatcher short long ids idl ts tl) long).suffixMatch
      = some ⟨idl, long, tl⟩ := by
  have hmax := maxLen_two short long ids idl ts tl hlen
  apply suffixMatch_eq_some
  · rw [withBuffer_buffer, withBuffer_maxLen, hmax]
    omega
  · rw [withBuffer_buffer]
    omega
  · rw [withBuffer_buffer, withBuffer_root, walkMatch_two, if_pos rfl]
  · intro i _ _ r hr
    rw [withBuffer_buffer, withBuffer_root, walkMatch_two] at hr
    by_cases h1 : long.drop i = long
    · rw [if_pos h1] at hr
      cases hr
      exact le_refl _
    · rw [if_neg h1] at hr
      by_cases h2 : long.drop i = short
      · rw [if_pos h2] at hr
        cases hr
        dsimp only
        omega
      · rw [if_neg h2] at hr
        exact absurd hr (by simp)

/-- `feed` in the case-sensitive, no-trim case, restated through
`withBuffer`. -/
theorem feed_eq (m : Matcher) (ch : Char) (hcase : m.caseSensitive = true)
    (hnotrim : (m.buffer ++ [ch]).length ≤ m.maxLen + 20) :
    m.feed ch
      = match (withBuffer m (m.buffer ++ [ch])).suffixMatch with
        | some r =>
          if r.isInstant then (withBuffer m [], some r)
          else (withBuffer m (m.buffer ++ [ch]), none)
        | none => (withBuffer m (m.buffer ++ [ch]), none) := by
  unfold Matcher.feed
  dsimp only
  rw [if_pos hcase, if_neg (by omega)]
  rfl

theorem c3_feed_step (short long : List Char) (ids idl : Nat) (ts tl : TriggerSet)
    (hlen : short.length < long.length) (htl : tl.instant = true)
    (hne : ∀ k, k < long.length → 0 < k → ¬ short <:+ long.take k)
    (k : Nat) (hk : k < long.length) :
    (withBuffer (twoNameMatcher short long ids idl ts tl) (long.take k)).feed long[k]
      = if k + 1 < long.length
        then (withBuffer (twoNameMatcher short long ids idl ts tl) (long.take (k + 1)), none)
        else (withBuffer (twoNameMatcher short long ids idl ts tl) [],
              some ⟨idl, long, tl⟩) := by
  have hmax := maxLen_two short long ids idl ts tl hlen
  have h1 : long.take k ++ [long[k]] = long.take (k + 1) := List.take_concat_get' long k hk
  rw [feed_eq _ _ (by rw [withBuffer_caseSensitive]; rfl) ?notrim]
  case notrim =>
    rw [withBuffer_buffer, withBuffer_maxLen, hmax, h1, List.length_take]
    omega
  rw [withBuffer_buffer, withBuffer_withBuffer, withBuffer_withBuffer, h1]
  by_cases hk1 : k + 1 < long.length
  · rw [c3_sm_none short long ids idl ts tl hne (k + 1) (by omega) hk1]
    rw [if_pos hk1]
  · have hkeq : long.take (k + 1) = long := by
      have : k + 1 = long.length := by omega
      rw [this, List.take_length]
    rw [hkeq, c3_sm_long short long ids idl ts tl hlen]
    have hinst : (⟨idl, long, tl⟩ : MatchResult).isInstant = true := htl
    rw [if_neg hk1]
    dsimp only
    rw [hinst, if_pos rfl]

theorem c3_feedAll_take (short long : List Char) (ids idl : Nat) (ts tl : TriggerSet)
    (hlen : short.length < long.length) (htl : tl.instant = true)
    (hne : ∀ k, k < long.length → 0 < k → ¬ short <:+ long.take k) :
    ∀ k, k ≤ long.length →
      (twoNameMatcher short long ids idl ts tl).feedAll (long.take k)
        = if k < long.length
          then (withBuffer (twoNameMatcher short long ids idl ts tl) (long.take k), [])
          else (withBuffer (twoNameMatcher short long ids idl ts tl) [],
                [⟨idl, long, tl⟩]) := by
  intro k
  induction k with
  | zero =>
    intro _
    have hn : 0 < long.length := by omega
    rw [if_pos hn, List.take_zero, feedAll_nil]
    rfl
  | succ k ih =>
    intro hk1
    have hkn : k < long.length := by omega
    have h1 : long.take k ++ [long[k]] = long.take (k + 1) := List.take_concat_get' long k hkn
    have hsnoc : (twoNameMatcher short long ids idl ts tl).feedAll (long.take (k + 1))
        = ((((twoNameMatcher short long ids idl ts tl).feedAll (long.take k)).1.feed long[k]).1,
            ((twoNameMatcher short long ids idl ts tl).feedAll (long.take k)).2
              ++ (((twoNameMatcher short long ids idl ts tl).feedAll (long.take k)).1.feed
                    long[k]).2.toList) := by
      rw [← h1]
      exact feedAll_snoc _ _ _
    rw [hsnoc, ih (by omega), if_pos hkn]
    dsimp only
    rw [c3_feed_step short long ids idl ts tl hlen htl hne k hkn]
    by_cases hk2 : k + 1 < long.length
    · rw [if_pos hk2, if_pos hk2]
      rfl
    · rw [if_neg hk2, if_neg hk2]
      rfl

/-- C3 amended: with two registered names where one is a proper suffix of
the other and the longer is instant, feeding the characters of the longer
name yields exactly one match — the longer name — and empties the buffer,
**provided** the shorter name is not a suffix of any proper prefix of the
longer (otherwise the shorter fires early; see the counterexample). -/
theorem c3_amended (short long : List Char) (ids idl : Nat) (ts tl : TriggerSet)
    (hsuf : short <:+ long) (hlen : short.length < long.length)
    (htl : tl.instant = true)
    (hne : ∀ k, k < long.length → 0 < k → ¬ short <:+ long.take k) :
    ((twoNameMatcher short long ids idl ts tl).feedAll long).2 = [⟨idl, long, tl⟩]
      ∧ ((twoNameMatcher short long ids idl ts tl).feedAll long).1.buffer = [] := by
  have h := c3_feedAll_take short long ids idl ts tl hlen htl hne long.length (le_refl _)
  rw [List.take_length, if_neg (lt_irrefl _)] at h
  rw [h]
  exact ⟨rfl, rfl⟩

/-- C3 witness: scenario S3 — `tw` and `btw` both instant; feeding
`b`, `t`, `w` yields exactly one match (`btw`) and an empty buffer. -/
theorem c3_witness :
    ((['t', 'w'] : List Char) <:+ ['b', 't', 'w']
        ∧ (['t', 'w'] : List Char).length < (['b', 't', 'w'] : List Char).length
        ∧ (⟨false, false, false, true⟩ : TriggerSet).instant = true
        ∧ (∀ k, k < (['b', 't', 'w'] : List Char).length → 0 < k →
            ¬ (['t', 'w'] : List Char) <:+ (['b', 't', 'w'] : List Char).take k))
      ∧ ((twoNameMatcher ['t', 'w'] ['b', 't', 'w'] 1 2
            ⟨false, false, false, true⟩ ⟨false, false, false, true⟩).feedAll
              ['b', 't', 'w']).2
          = [⟨2, ['b', 't', 'w'], ⟨false, false, false, true⟩⟩]
        ∧ ((twoNameMatcher ['t', 'w'] ['b', 't', 'w'] 1 2
            ⟨false, false, false, true⟩ ⟨false, false, false, true⟩).feedAll
              ['b', 't', 'w']).1.buffer
          = [] :=
  ⟨⟨by decide, by decide, by decide, by decide⟩,
    c3_amended ['t', 'w'] ['b', 't', 'w'] 1 2
      ⟨false, false, false, true⟩ ⟨false, false, false, true⟩
      (by decide) (by decide) (by decide) (by decide)⟩

/-- C3 claim as stated is refuted: register instant `a` and instant
`aba` (where `a` is a proper suffix of `aba`); feeding `a`, `b`, `a`
yields **two** matches, both the shorter name `a` — not exactly one match
of the longer name. -/
theorem c3_counterexample :
    ((twoNameMatcher ['a'] ['a', 'b', 'a'] 1 2
          ⟨false, false, false, true⟩ ⟨false, false, false, true⟩).feedAll
            ['a', 'b', 'a']).2
        = [⟨1, ['a'], ⟨false, false, false, true⟩⟩, ⟨1, ['a'], ⟨false, false, false, true⟩⟩]
      ∧ ((twoNameMatcher ['a'] ['a', 'b', 'a'] 1 2
          ⟨false, false, false, true⟩ ⟨false, false, false, true⟩).feedAll
            ['a', 'b', 'a']).2
        ≠ [⟨2, ['a', 'b', 'a'], ⟨false, false, false, true⟩⟩] := by
  refine ⟨?_, ?_⟩ <;> decide

/-! ## Theorems about the executor -/

theorem countBackspaces_foldl_acc (evs : List SendEvent) :
    ∀ a : Nat,
      evs.foldl
          (fun a e =>
            match e with
            | SendEvent.backspaces n => a + n
            | _ => a)
          a
        = a + countBackspaces evs := by
  induction evs with
  | nil => intro a; simp [countBackspaces]
  | cons e rest ih =>
    intro a
    rw [List.foldl_cons]
    cases e with
    | backspaces n =>
      show (rest.foldl _ (a + n)) = _
      rw [ih (a + n)]
      have : countBackspaces (SendEvent.backspaces n :: rest) = n + countBackspaces rest := by
        show (rest.foldl _ (0 + n)) = _
        rw [ih (0 + n)]
        omega
      omega
    | typeText s =>
      show (rest.foldl _ a) = _
      rw [ih a]
      have : countBackspaces (SendEvent.typeText s :: rest) = countBackspaces rest := by
        show (rest.foldl _ 0) = _
        rw [ih 0]
        omega
      omega
    | pasteText s =>
      show (rest.foldl _ a) = _
      rw [ih a]
      have : countBackspaces (SendEvent.pasteText s :: rest) = countBackspaces rest := by
        show (rest.foldl _ 0) = _
        rw [ih 0]
        omega
      omega
    | cursorLeft n =>
      show (rest.foldl _ a) = _
      rw [ih a]
      have : countBackspaces (SendEvent.cursorLeft n :: rest) = countBackspaces rest := by
        show (rest.foldl _ 0) = _
        rw [ih 0]
        omega
      omega

theorem countBackspaces_cons_backspaces (n : Nat) (rest : List SendEvent) :
    countBackspaces (SendEvent.backspaces n :: rest) = n + countBackspaces rest := by
  show (rest.foldl _ (0 + n)) = _
  rw [countBackspaces_foldl_acc rest (0 + n)]
  omega

theorem countBackspaces_cons_typeText (s : List Char) (rest : List SendEvent) :
    countBackspaces (SendEvent.typeText s :: rest) = countBackspaces rest := by
  show (rest.foldl _ 0) = _
  rw [countBackspaces_foldl_acc rest 0]
  omega

theorem countBackspaces_cons_pasteText (s : List Char) (rest : List SendEvent) :
    countBackspaces (SendEvent.pasteText s :: rest) = countBackspaces rest := by
  show (rest.foldl _ 0) = _
  rw [countBackspaces_foldl_acc rest 0]
  omega

theorem countBackspaces_cons_cursorLeft (n : Nat) (rest : List SendEvent) :
    countBackspaces (SendEvent.cursorLeft n :: rest) = countBackspaces rest := by
  show (rest.foldl _ 0) = _
  rw [countBackspaces_foldl_acc rest 0]
  omega

theorem countBackspaces_nil : countBackspaces [] = 0 := rfl

/-- C2 amended: for **every** `execute` run — including cancelled ones —
the total number of backspaces sent equals the length of the typed
hotstring *name* plus 1 when a trigger character was present (not the
length of the injected text, which is unrelated). -/
theorem c2_amended (hotstringName replacement : List Char) (isScript : Bool)
    (sendMode : SendMode) (promptFn : Option (List Char → Option (List Char)))
    (subst : List Char → Option (List Char) → List Char) (triggerChar : Bool) :
    countBackspaces
        (pyExecute hotstringName replacement isScript sendMode promptFn subst
          triggerChar).events
      = hotstringName.length + (if triggerChar then 1 else 0) := by
  unfold pyExecute
  dsimp only
  repeat' split
  all_goals
    simp [countBackspaces_cons_backspaces, countBackspaces_cons_typeText,
      countBackspaces_cons_pasteText, countBackspaces_cons_cursorLeft,
      countBackspaces_nil]

/-- C2 claim as stated is refuted at scenario S1: `btw → "by the way"`
with a trigger character sends 4 backspaces while the injected text has
length 10, and `4 ≠ 10 + 1`. -/
theorem c2_counterexample :
    (pyExecute ['b', 't', 'w'] ['b', 'y', ' ', 't', 'h', 'e', ' ', 'w', 'a', 'y'] false
          SendMode.direct none (fun t _ => t) true).events
        = [SendEvent.backspaces 4,
           SendEvent.typeText ['b', 'y', ' ', 't', 'h', 'e', ' ', 'w', 'a', 'y']]
      ∧ countBackspaces
          (pyExecute ['b', 't', 'w'] ['b', 'y', ' ', 't', 'h', 'e', ' ', 'w', 'a', 'y'] false
            SendMode.direct none (fun t _ => t) true).events
        ≠ (['b', 'y', ' ', 't', 'h', 'e', ' ', 'w', 'a', 'y'] : List Char).length + 1 := by
  refine ⟨?_, ?_⟩ <;> decide

/-- C1 amended: when `execute` returns `False` (prompt cancelled), no
text is injected, no caret movement happens and no stats are reported —
but the erasure has already been performed: the event list is exactly one
backspace burst of `len(name) + (1 if trigger_char else 0)`, because the
code sends the backspaces *before* invoking the prompt callback. -/
theorem c1_amended (hotstringName replacement : List Char) (isScript : Bool)
    (sendMode : SendMode) (promptFn : Option (List Char → Option (List Char)))
    (subst : List Char → Option (List Char) → List Char) (triggerChar : Bool)
    (h : (pyExecute hotstringName replacement isScript sendMode promptFn subst
            triggerChar).ok = false) :
    (pyExecute hotstringName replacement isScript sendMode promptFn subst
          triggerChar).events
        = [SendEvent.backspaces (hotstringName.length + (if triggerChar then 1 else 0))]
      ∧ (pyExecute hotstringName replacement isScript sendMode promptFn subst
          triggerChar).statsReport = none := by
  revert h
  unfold pyExecute
  dsimp only
  repeat' split
  all_goals intro h
  all_goals
    first
    | exact ⟨rfl, rfl⟩
    | exact absurd h (by simp)

/-- C1 witness: scenario S4 — `pr → "Hi %prompt%!"` with a space trigger
and a cancelling prompt callback returns `False` with exactly the
3-backspace erasure already sent. -/
theorem c1_witness :
    ((pyExecute ['p', 'r'] ['H', 'i', ' ', '%', 'p', 'r', 'o', 'm', 'p', 't', '%', '!'] false
          SendMode.direct (some (fun _ => none)) (fun t _ => t) true).ok = false)
      ∧ ((pyExecute ['p', 'r'] ['H', 'i', ' ', '%', 'p', 'r', 'o', 'm', 'p', 't', '%', '!'] false
            SendMode.direct (some (fun _ => none)) (fun t _ => t) true).events
          = [SendEvent.backspaces ((['p', 'r'] : List Char).length + (if true then 1 else 0))]
        ∧ (pyExecute ['p', 'r'] ['H', 'i', ' ', '%', 'p', 'r', 'o', 'm', 'p', 't', '%', '!'] false
            SendMode.direct (some (fun _ => none)) (fun t _ => t) true).statsReport = none) :=
  ⟨by decide,
    c1_amended ['p', 'r'] ['H', 'i', ' ', '%', 'p', 'r', 'o', 'm', 'p', 't', '%', '!'] false
      SendMode.direct (some (fun _ => none)) (fun t _ => t) true (by decide)⟩

/-- C1 claim as stated is refuted: in the cancelled S4 run the executor
has already sent 3 backspaces (`len("pr") + 1`), so "no backspaces are
sent" is false — though it does return `False` and injects nothing. -/
theorem c1_counterexample :
    ((pyExecute ['p', 'r'] ['H', 'i', ' ', '%', 'p', 'r', 'o', 'm', 'p', 't', '%', '!'] false
          SendMode.direct (some (fun _ => none)) (fun t _ => t) true).ok = false)
      ∧ (pyExecute ['p', 'r'] ['H', 'i', ' ', '%', 'p', 'r', 'o', 'm', 'p', 't', '%', '!'] false
          SendMode.direct (some (fun _ => none)) (fun t _ => t) true).events
        = [SendEvent.backspaces 3]
      ∧ (pyExecute ['p', 'r'] ['H', 'i', ' ', '%', 'p', 'r', 'o', 'm', 'p', 't', '%', '!'] false
          SendMode.direct (some (fun _ => none)) (fun t _ => t) true).events
        ≠ [] := by
  refine ⟨?_, ?_, ?_⟩ <;> decide

/-! ## Theorems about the time-tracking ledger -/

theorem alGet_alSet {κ α : Type} [DecidableEq κ] (l : List (κ × α)) (k : κ) (v : α) (k' : κ) :
    alGet (alSet l k v) k' = if k' = k then some v else alGet l k' := by
  induction l with
  | nil =>
    simp [alSet, alGet]
  | cons p rest ih =>
    obtain ⟨k0, v0⟩ := p
    by_cases h : k = k0
    · subst h
      by_cases h' : k' = k <;> simp [alSet, alGet, h']
    · simp only [alSet, h, if_false]
      by_cases h' : k' = k0
      · subst h'
        simp [alGet, Ne.symm h]
      · simp [alGet, h', ih]

theorem ensureToday_lookup (entries : List (String × List (String × TicketEntry)))
    (today d t : String) :
    alGet2 (ensureToday entries today) d t = alGet2 entries d t := by
  unfold ensureToday
  cases h1 : alGet entries today with
  | some td => simp [h1]
  | none =>
    simp only [h1, Option.isSome_none, Bool.false_eq_true, if_false]
    unfold alGet2
    rw [alGet_alSet]
    by_cases hd : d = today
    · subst hd
      rw [if_pos rfl, h1]
      simp [alGet]
    · rw [if_neg hd]

theorem alGet2_alSet_today (entries : List (String × List (String × TicketEntry)))
    (today : String) (xs : List (String × TicketEntry)) (d t : String) :
    alGet2 (alSet entries today xs) d t
      = if d = today then alGet xs t else alGet2 entries d t := by
  unfold alGet2
  rw [alGet_alSet]
  by_cases hd : d = today
  · simp [hd]
  · simp [hd]

theorem acc_lookup (entries : List (String × List (String × TicketEntry)))
    (today ticket src : String) (elapsed now : Int) (d t : String) :
    alGet2 (accumulate entries today ticket src elapsed now) d t
      = if d = today ∧ t = ticket
        then some ⟨((alGet2 entries today ticket).getD ⟨0, src, now⟩).totalSeconds + elapsed,
                   ((alGet2 entries today ticket).getD ⟨0, src, now⟩).source, now⟩
        else alGet2 entries d t := by
  cases h1 : alGet entries today with
  | none =>
    have h1' : alGet2 entries today ticket = none := by
      unfold alGet2
      rw [h1]
    have hshape : accumulate entries today ticket src elapsed now
        = alSet (alSet entries today []) today
            (alSet (alSet [] ticket (⟨0, src, now⟩ : TicketEntry)) ticket
              ⟨0 + elapsed, src, now⟩) := by
      unfold accumulate alSetdefault
      rw [h1]
      rfl
    rw [hshape, alGet2_alSet_today, h1']
    by_cases hd : d = today
    · rw [if_pos hd, alGet_alSet, alGet_alSet]
      by_cases ht : t = ticket
      · rw [if_pos ht, if_pos ⟨hd, ht⟩]
        rfl
      · rw [if_neg ht, if_neg ht, if_neg (by simp [ht])]
        subst hd
        unfold alGet2
        rw [h1]
        rfl
    · rw [if_neg hd, alGet2_alSet_today, if_neg hd, if_neg (by simp [hd])]
  | some td =>
    cases h2 : alGet td ticket with
    | some e =>
      have h1' : alGet2 entries today ticket = some e := by
        unfold alGet2
        rw [h1]
        dsimp only
        rw [h2]
      have hshape : accumulate entries today ticket src elapsed now
          = alSet entries today
              (alSet td ticket ⟨e.totalSeconds + elapsed, e.source, now⟩) := by
        unfold accumulate alSetdefault
        rw [h1]
        dsimp only
        rw [h2]
        try rfl
      rw [hshape, alGet2_alSet_today, h1']
      by_cases hd : d = today
      · rw [if_pos hd, alGet_alSet]
        by_cases ht : t = ticket
        · rw [if_pos ht, if_pos ⟨hd, ht⟩]
          rfl
        · rw [if_neg ht, if_neg (by simp [ht])]
          subst hd
          unfold alGet2
          rw [h1]
      · rw [if_neg hd, if_neg (by simp [hd])]
    | none =>
      have h1' : alGet2 entries today ticket = none := by
        unfold alGet2
        rw [h1]
        dsimp only
        rw [h2]
      have hshape : accumulate entries today ticket src elapsed now
          = alSet entries today
              (alSet (alSet td ticket (⟨0, src, now⟩ : TicketEntry)) ticket
                ⟨0 + elapsed, src, now⟩) := by
        unfold accumulate alSetdefault
        rw [h1]
        dsimp only
        rw [h2]
        try rfl
      rw [hshape, alGet2_alSet_today, h1']
      by_cases hd : d = today
      · rw [if_pos hd, alGet_alSet, alGet_alSet]
        by_cases ht : t = ticket
        · rw [if_pos ht, if_pos ⟨hd, ht⟩]
          rfl
        · rw [if_neg ht, if_neg ht, if_neg (by simp [ht])]
          subst hd
          unfold alGet2
          rw [h1]
      · rw [if_neg hd, if_neg (by simp [hd])]

theorem registerTicket_lookup (entries : List (String × List (String × TicketEntry)))
    (today t0 src : String) (now : Int) (d t : String) :
    alGet2 (registerTicket entries today t0 src now) d t
      = if d = today ∧ t = t0 ∧ alGet2 entries today t0 = none
        then some ⟨0, src, now⟩
        else alGet2 entries d t := by
  cases h1 : alGet entries today with
  | none =>
    have h1' : alGet2 entries today t0 = none := by
      unfold alGet2
      rw [h1]
    have hshape : registerTicket entries today t0 src now
        = alSet (alSet entries today []) today
            (alSet [] t0 (⟨0, src, now⟩ : TicketEntry)) := by
      unfold registerTicket alSetdefault
      rw [h1]
      rfl
    rw [hshape, alGet2_alSet_today, h1']
    by_cases hd : d = today
    · rw [if_pos hd, alGet_alSet]
      by_cases ht : t = t0
      · rw [if_pos ht, if_pos ⟨hd, ht, rfl⟩]
      · rw [if_neg ht, if_neg (by simp [ht])]
        subst hd
        unfold alGet2
        rw [h1]
        rfl
    · rw [if_neg hd, alGet2_alSet_today, if_neg hd, if_neg (by simp [hd])]
  | some td =>
    cases h2 : alGet td t0 with
    | some e =>
      have h1' : alGet2 entries today t0 = some e := by
        unfold alGet2
        rw [h1]
        dsimp only
        rw [h2]
      have hshape : registerTicket entries today t0 src now = alSet entries today td := by
        unfold registerTicket alSetdefault
        rw [h1]
        dsimp only
        rw [h2]
        try rfl
      rw [hshape, alGet2_alSet_today, h1']
      by_cases hd : d = today
      · rw [if_pos hd, if_neg (by simp)]
        subst hd
        unfold alGet2
        rw [h1]
      · rw [if_neg hd, if_neg (by simp [hd])]
    | none =>
      have h1' : alGet2 entries today t0 = none := by
        unfold alGet2
        rw [h1]
        dsimp only
        rw [h2]
      have hshape : registerTicket entries today t0 src now
          = alSet entries today (alSet td t0 (⟨0, src, now⟩ : TicketEntry)) := by
        unfold registerTicket alSetdefault
        rw [h1]
        dsimp only
        rw [h2]
        try rfl
      rw [hshape, alGet2_alSet_today, h1']
      by_cases hd : d = today
      · rw [if_pos hd, alGet_alSet]
        by_cases ht : t = t0
        · rw [if_pos ht, if_pos ⟨hd, ht, rfl⟩]
        · rw [if_neg ht, if_neg (by simp [ht])]
          subst hd
          unfold alGet2
          rw [h1]
      · rw [if_neg hd, if_neg (by simp [hd])]

theorem finalize_entries (env : TrackEnv) (source : String) (incoming : Option String)
    (data : Ledger) :
    (finalizeActive env source incoming data).1.entries = data.entries
      ∨ (shouldTrackTime env = true
          ∧ ∃ tk sr el, (0:Int) < el
            ∧ (finalizeActive env source incoming data).1.entries
                = accumulate data.entries env.today tk sr el env.now) := by
  unfold finalizeActive
  cases data.active with
  | none => left; rfl
  | some active =>
    dsimp only
    by_cases h0 : active.ticketNumber = ""
    · rw [if_pos h0]
      left
      rfl
    · rw [if_neg h0]
      cases active.startedAt with
      | none => left; rfl
      | some st =>
        dsimp only
        by_cases htr : (shouldTrackTime env && decide ((0:Int) < env.now - st)) = true
        · have hst : shouldTrackTime env = true := (Bool.and_eq_true_iff.mp htr).1
          have hel : (0:Int) < env.now - st :=
            of_decide_eq_true (Bool.and_eq_true_iff.mp htr).2
          split
          · right
            exact ⟨hst, active.ticketNumber, active.source, env.now - st, hel, by simp [htr]⟩
          · right
            exact ⟨hst, active.ticketNumber, active.source, env.now - st, hel, by simp [htr]⟩
        · split
          · left
            simp [htr]
          · left
            simp [htr]

theorem update_entries_cases (env : TrackEnv) (source : String) (incoming : Option String)
    (data : Ledger) :
    (updateTimeTracking env source incoming data).entries
        = (finalizeActive env source incoming
            ⟨ensureToday data.entries env.today, data.active⟩).1.entries
      ∨ ∃ t0, (updateTimeTracking env source incoming data).entries
          = registerTicket
              (finalizeActive env source incoming
                ⟨ensureToday data.entries env.today, data.active⟩).1.entries
              env.today t0 source env.now := by
  unfold updateTimeTracking
  dsimp only
  split
  · left
    rfl
  · split
    · split
      · left
        rfl
      · right
        exact ⟨_, rfl⟩
    · left
      rfl

theorem shouldTrack_false_of_gate (env : TrackEnv)
    (hgate : env.locked = true ∨ isPastTrackingCutoff env = true) :
    shouldTrackTime env = false := by
  unfold shouldTrackTime
  rcases hgate with h | h
  · simp [h]
  · by_cases hl : env.locked <;> simp [hl, h]

/-- C5 confirmed: when the workstation is locked or the local time is at
or past the 17:50 cutoff, an ingest call never adds elapsed seconds to
any `entries[date][ticket].total_seconds`: every value in the updated
ledger is either a freshly created zero or an unchanged old value. -/
theorem c5_no_accumulation_when_gated (env : TrackEnv) (source : String)
    (incoming : Option String) (data : Ledger) (d t : String) (e' : TicketEntry)
    (hgate : env.locked = true ∨ isPastTrackingCutoff env = true)
    (hnew : alGet2 (updateTimeTracking env source incoming data).entries d t = some e') :
    e'.totalSeconds = 0
      ∨ ∃ e, alGet2 data.entries d t = some e ∧ e'.totalSeconds = e.totalSeconds := by
  have hst := shouldTrack_false_of_gate env hgate
  have hbase :
      (finalizeActive env source incoming
          ⟨ensureToday data.entries env.today, data.active⟩).1.entries
        = ensureToday data.entries env.today := by
    rcases finalize_entries env source incoming
        ⟨ensureToday data.entries env.today, data.active⟩ with h | ⟨h, _⟩
    · exact h
    · rw [hst] at h
      cases h
  rcases update_entries_cases env source incoming data with h | ⟨t0, h⟩
  · rw [h, hbase, ensureToday_lookup] at hnew
    exact Or.inr ⟨e', hnew, rfl⟩
  · rw [h, hbase, registerTicket_lookup] at hnew
    by_cases hc : d = env.today ∧ t = t0 ∧ alGet2 (ensureToday data.entries env.today) env.today t0 = none
    · rw [if_pos hc] at hnew
      cases hnew
      exact Or.inl rfl
    · rw [if_neg hc, ensureToday_lookup] at hnew
      exact Or.inr ⟨e', hnew, rfl⟩

/-- C5 witness: a locked workstation with an active same-ticket interval
of 600 s leaves the stored 5 s untouched. -/
theorem c5_witness :
    (((⟨true, 12, 0, 600, "2026-02-22"⟩ : TrackEnv).locked = true
        ∨ isPastTrackingCutoff ⟨true, 12, 0, 600, "2026-02-22"⟩ = true)
      ∧ alGet2 (updateTimeTracking ⟨true, 12, 0, 600, "2026-02-22"⟩ "freshdesk" (some "100")
            ⟨[("2026-02-22", [("100", ⟨5, "freshdesk", 0⟩)])],
              some ⟨"100", "freshdesk", some 0⟩⟩).entries "2026-02-22" "100"
          = some ⟨5, "freshdesk", 0⟩)
      ∧ ((5:Int) = 0
          ∨ ∃ e, alGet2 [("2026-02-22", [("100", (⟨5, "freshdesk", 0⟩ : TicketEntry))])]
                "2026-02-22" "100" = some e ∧ (⟨5, "freshdesk", 0⟩ : TicketEntry).totalSeconds
                  = e.totalSeconds) :=
  ⟨⟨by decide, by decide⟩,
    c5_no_accumulation_when_gated ⟨true, 12, 0, 600, "2026-02-22"⟩ "freshdesk" (some "100")
      ⟨[("2026-02-22", [("100", ⟨5, "freshdesk", 0⟩)])], some ⟨"100", "freshdesk", some 0⟩⟩
      "2026-02-22" "100" ⟨5, "freshdesk", 0⟩ (by decide) (by decide)⟩

theorem update_nonneg_step (env : TrackEnv) (source : String) (incoming : Option String)
    (data : Ledger)
    (h : ∀ d t e, alGet2 data.entries d t = some e → 0 ≤ e.totalSeconds) :
    ∀ d t e, alGet2 (updateTimeTracking env source incoming data).entries d t = some e →
      0 ≤ e.totalSeconds := by
  have hbase : ∀ d t e,
      alGet2 (finalizeActive env source incoming
          ⟨ensureToday data.entries env.today, data.active⟩).1.entries d t = some e →
        0 ≤ e.totalSeconds := by
    intro d t e he
    rcases finalize_entries env source incoming
        ⟨ensureToday data.entries env.today, data.active⟩ with hf | ⟨_, tk, sr, el, hel, hf⟩
    · rw [hf, ensureToday_lookup] at he
      exact h d t e he
    · rw [hf, acc_lookup] at he
      by_cases hc : d = env.today ∧ t = tk
      · rw [if_pos hc] at he
        cases he
        have hb : 0 ≤ ((alGet2 (ensureToday data.entries env.today) env.today tk).getD
            ⟨0, sr, env.now⟩).totalSeconds := by
          cases hg : alGet2 (ensureToday data.entries env.today) env.today tk with
          | none => simp [hg]
          | some e0 =>
            rw [ensureToday_lookup] at hg
            simpa [hg] using h env.today tk e0 hg
        dsimp only
        omega
      · rw [if_neg hc, ensureToday_lookup] at he
        exact h d t e he
  intro d t e he
  rcases update_entries_cases env source incoming data with hu | ⟨t0, hu⟩
  · rw [hu] at he
    exact hbase d t e he
  · rw [hu, registerTicket_lookup] at he
    by_cases hc : d = env.today ∧ t = t0
        ∧ alGet2 (finalizeActive env source incoming
            ⟨ensureToday data.entries env.today, data.active⟩).1.entries env.today t0 = none
    · rw [if_pos hc] at he
      cases he
      simp
    · rw [if_neg hc] at he
      exact hbase d t e he

theorem update_mono_step (env : TrackEnv) (source : String) (incoming : Option String)
    (data : Ledger) :
    ∀ d t e, alGet2 data.entries d t = some e →
      ∃ e', alGet2 (updateTimeTracking env source incoming data).entries d t = some e'
        ∧ e.totalSeconds ≤ e'.totalSeconds := by
  have hbase : ∀ d t e, alGet2 data.entries d t = some e →
      ∃ e', alGet2 (finalizeActive env source incoming
          ⟨ensureToday data.entries env.today, data.active⟩).1.entries d t = some e'
        ∧ e.totalSeconds ≤ e'.totalSeconds := by
    intro d t e he
    rcases finalize_entries env source incoming
        ⟨ensureToday data.entries env.today, data.active⟩ with hf | ⟨_, tk, sr, el, hel, hf⟩
    · refine ⟨e, ?_, le_refl _⟩
      rw [hf, ensureToday_lookup]
      exact he
    · rw [hf]
      by_cases hc : d = env.today ∧ t = tk
      · obtain ⟨hd, ht⟩ := hc
        subst hd
        subst ht
        rw [acc_lookup, if_pos ⟨rfl, rfl⟩]
        have hg : alGet2 (ensureToday data.entries env.today) env.today t = some e := by
          rw [ensureToday_lookup]
          exact he
        refine ⟨_, rfl, ?_⟩
        rw [hg, Option.getD_some]
        dsimp only
        omega
      · rw [acc_lookup, if_neg hc, ensureToday_lookup]
        exact ⟨e, he, le_refl _⟩
  intro d t e he
  obtain ⟨e1, he1, hle1⟩ := hbase d t e he
  rcases update_entries_cases env source incoming data with hu | ⟨t0, hu⟩
  · rw [hu]
    exact ⟨e1, he1, hle1⟩
  · rw [hu, registerTicket_lookup]
    by_cases hc : d = env.today ∧ t = t0
        ∧ alGet2 (finalizeActive env source incoming
            ⟨ensureToday data.entries env.today, data.active⟩).1.entries env.today t0 = none
    · obtain ⟨rfl, rfl, hnone⟩ := hc
      rw [hnone] at he1
      cases he1
    · rw [if_neg hc]
      exact ⟨e1, he1, hle1⟩

/-- C10 confirmed: over any sequence of ingest calls, all stored
`total_seconds` values stay non-negative, and each existing entry's
`total_seconds` never decreases (elapsed time is only ever added when
strictly positive; new entries start at zero). -/
theorem c10_ledger_monotone (steps : List (TrackEnv × String × Option String)) :
    ∀ data : Ledger,
      (∀ d t e, alGet2 data.entries d t = some e → 0 ≤ e.totalSeconds) →
        (∀ d t e,
          alGet2 (steps.foldl
              (fun acc s => updateTimeTracking s.1 s.2.1 s.2.2 acc) data).entries d t
            = some e → 0 ≤ e.totalSeconds)
        ∧ (∀ d t e, alGet2 data.entries d t = some e →
            ∃ e', alGet2 (steps.foldl
                (fun acc s => updateTimeTracking s.1 s.2.1 s.2.2 acc) data).entries d t
              = some e' ∧ e.totalSeconds ≤ e'.totalSeconds) := by
  induction steps with
  | nil =>
    intro data hnn
    refine ⟨hnn, ?_⟩
    intro d t e he
    exact ⟨e, he, le_refl _⟩
  | cons s rest ih =>
    intro data hnn
    rw [List.foldl_cons]
    obtain ⟨ihnn, ihmono⟩ :=
      ih (updateTimeTracking s.1 s.2.1 s.2.2 data) (update_nonneg_step s.1 s.2.1 s.2.2 data hnn)
    refine ⟨ihnn, ?_⟩
    intro d t e he
    obtain ⟨e1, he1, hle1⟩ := update_mono_step s.1 s.2.1 s.2.2 data d t e he
    obtain ⟨e2, he2, hle2⟩ := ihmono d t e1 he1
    exact ⟨e2, he2, le_trans hle1 hle2⟩

/-- C10 witness: the S5 sequence (ticket 100 at t=0 and t=600, then
ticket 200 at t=900, all inside the tracked window) starting from the
empty ledger keeps every total non-negative; the final ledger holds 900 s
for ticket 100. -/
theorem c10_witness :
    (∀ d t e, alGet2 (⟨[], none⟩ : Ledger).entries d t = some e → 0 ≤ e.totalSeconds)
      ∧ ((∀ d t e,
            alGet2 (([(⟨false, 12, 0, 0, "2026-02-22"⟩, "freshdesk", some "100"),
                (⟨false, 12, 10, 600, "2026-02-22"⟩, "freshdesk", some "100"),
                (⟨false, 12, 15, 900, "2026-02-22"⟩, "freshdesk", some "200")] :
                  List (TrackEnv × String × Option String)).foldl
                (fun acc s => updateTimeTracking s.1 s.2.1 s.2.2 acc)
                (⟨[], none⟩ : Ledger)).entries d t = some e → 0 ≤ e.totalSeconds)
          ∧ (∀ d t e, alGet2 (⟨[], none⟩ : Ledger).entries d t = some e →
              ∃ e', alGet2 (([(⟨false, 12, 0, 0, "2026-02-22"⟩, "freshdesk", some "100"),
                  (⟨false, 12, 10, 600, "2026-02-22"⟩, "freshdesk", some "100"),
                  (⟨false, 12, 15, 900, "2026-02-22"⟩, "freshdesk", some "200")] :
                    List (TrackEnv × String × Option String)).foldl
                  (fun acc s => updateTimeTracking s.1 s.2.1 s.2.2 acc)
                  (⟨[], none⟩ : Ledger)).entries d t = some e'
                ∧ e.totalSeconds ≤ e'.totalSeconds)) :=
  ⟨fun d t e he => by simp [alGet2, alGet] at he,
    c10_ledger_monotone
      [(⟨false, 12, 0, 0, "2026-02-22"⟩, "freshdesk", some "100"),
        (⟨false, 12, 10, 600, "2026-02-22"⟩, "freshdesk", some "100"),
        (⟨false, 12, 15, 900, "2026-02-22"⟩, "freshdesk", some "200")]
      ⟨[], none⟩ (fun d t e he => by simp [alGet2, alGet] at he)⟩

/-! ## Theorems about the bundle codec: generic string machinery -/

theorem hex_char_not_comma {c : Char}
    (h : (48 ≤ c.toNat ∧ c.toNat ≤ 57) ∨ (65 ≤ c.toNat ∧ c.toNat ≤ 70)) :
    c ≠ ',' := by
  intro he
  subst he
  exact absurd h (by decide)

/-- C9 confirmed: on a Backspace event the monitor never invokes the
match callback — the dispatched list is empty for every matcher state,
including states where the re-feed would internally return an instant
match — and the resulting matcher state is exactly the reset-then-re-feed
rebuild of the buffer minus its last character. -/
theorem c9_backspace_rebuild (m : Matcher) :
    (onKeyPress false m KeyEvent.backspace).2 = [] ∧
      (onKeyPress false m KeyEvent.backspace).1
        = (if m.buffer.isEmpty then m else (m.reset.feedAll m.buffer.dropLast).1) := by
  by_cases h : m.buffer.isEmpty <;> simp [onKeyPress, h]

end Kodex
